import Mathlib

/-!
Verification of the coltrane weblog data layer (`coltrane/models.py`,
`coltrane/admin.py`).

Shallow embedding conventions:

* The persistent store for each entity type is a `List` of records; a
  Django model instance is a record whose `id` field is `none` before the
  first save (`self.id` is falsy in Python for an unsaved object).
* `super(...).save()` is embedded as `write…`: it assigns a fresh primary
  key and appends when `id = none`, and replaces the row with the same
  primary key otherwise.
* The markup renderer (`template_utils.markup.formatter`) is an external
  collaborator: it is a parameter `fmt : String → Option String`, where
  `none` embeds the renderer raising an exception.  A save that hits a
  raising renderer propagates the exception, i.e. returns `none` and no
  write occurs.
* Python truthiness of an optional text field (`if self.excerpt:`) is
  `optTruthy`: `None` and the empty string are falsy.
* `pub_date` (a Python `datetime`) is a calendar day plus a time within
  the day, ordered lexicographically.
-/

/-- A `datetime` value: calendar day plus time within the day. -/
structure DateTime where
  day : Nat
  time : Nat
deriving Repr, DecidableEq

/-- Strict chronological order on `DateTime` (lexicographic). -/
def DateTime.lt (a b : DateTime) : Bool :=
  a.day < b.day || (a.day == b.day && a.time < b.time)

/-- Python truthiness of an optional text field: `None` and `""` are falsy. -/
def optTruthy : Option String → Bool
  | none => false
  | some s => !(s == "")

/-- An optional rendered field counts as empty when it is absent or `""`. -/
def optEmpty : Option String → Bool
  | none => true
  | some s => s == ""

/-- Model `coltrane.models.Category`: title, unique slug, raw description and its
rendered counterpart (`description_html`, `editable=False, blank=True`). -/
structure Category where
  id : Option Nat := none
  title : String
  slug : String
  description : String
  description_html : String := ""
deriving Repr, DecidableEq

/-- Fresh primary key for a `Category` insert. -/
def categoryFreshId (store : List Category) : Nat :=
  (store.filterMap (fun c => c.id)).foldr Nat.max 0 + 1

/-- The underlying `Model.save()` write for `Category`: insert with a fresh
primary key when `id = none`, otherwise update the row with that key. -/
def writeCategory (c : Category) (store : List Category) : Category × List Category :=
  match c.id with
  | none =>
    let c2 := { c with id := some (categoryFreshId store) }
    (c2, store ++ [c2])
  | some i => (c, store.map (fun x => if x.id == some i then c else x))

/-- Embedding of `Category.save`: `self.description_html = formatter(self.description)`
then `super().save()`.  A raising renderer aborts before any write. -/
def Category.save (fmt : String → Option String) (c : Category)
    (store : List Category) : Option (Category × List Category) :=
  match fmt c.description with
  | none => none
  | some h => some (writeCategory { c with description_html := h } store)

/-- Model `coltrane.models.Entry`.  `status` uses the `STATUS_CHOICES` encoding
1 = Live, 2 = Draft, 3 = Hidden, with declared default 1.  `excerpt` and
`excerpt_html` are `blank=True, null=True` hence optional.  `categories`
is the many-to-many set of `Category` primary keys. -/
structure Entry where
  id : Option Nat := none
  author : Nat
  enable_comments : Bool := true
  featured : Bool := false
  pub_date : DateTime
  slug : String
  status : Nat := 1
  title : String
  body : String
  body_html : String := ""
  excerpt : Option String := none
  excerpt_html : Option String := none
  categories : List Nat := []
  tags : String := ""
deriving Repr, DecidableEq

/-- Fresh primary key for an `Entry` insert. -/
def entryFreshId (store : List Entry) : Nat :=
  (store.filterMap (fun e => e.id)).foldr Nat.max 0 + 1

/-- The underlying `Model.save()` write for `Entry`. -/
def writeEntry (e : Entry) (store : List Entry) : Entry × List Entry :=
  match e.id with
  | none =>
    let e2 := { e with id := some (entryFreshId store) }
    (e2, store ++ [e2])
  | some i => (e, store.map (fun x => if x.id == some i then e else x))

/-- Embedding of `Entry.save`:

    if self.excerpt:
        self.excerpt_html = formatter(self.excerpt)
    self.body_html = formatter(self.body)
    super(Entry, self).save()

When `excerpt` is falsy the old `excerpt_html` value is kept unchanged.
A raising renderer (either call) aborts the save before the write. -/
def Entry.save (fmt : String → Option String) (e : Entry)
    (store : List Entry) : Option (Entry × List Entry) :=
  match (if optTruthy e.excerpt then (fmt (e.excerpt.getD "")).map some
         else some e.excerpt_html) with
  | none => none
  | some xh =>
    match fmt e.body with
    | none => none
    | some bh => some (writeEntry { e with excerpt_html := xh, body_html := bh } store)

/-- Earliest element of a list by `pub_date` (first one among ties),
embedding `order_by('pub_date')` followed by taking the first row. -/
def pickEarliest : List Entry → Option Entry
  | [] => none
  | x :: xs =>
    match pickEarliest xs with
    | none => some x
    | some b => if DateTime.lt x.pub_date b.pub_date then some x else some b

/-- Latest element of a list by `pub_date`, embedding
`order_by('-pub_date')` followed by taking the first row. -/
def pickLatest : List Entry → Option Entry
  | [] => none
  | x :: xs =>
    match pickLatest xs with
    | none => some x
    | some b => if DateTime.lt b.pub_date x.pub_date then some x else some b

/-- Embedding of `Entry._next_previous_helper`: delegates to Django's
`get_next_by_pub_date` / `get_previous_by_pub_date` with the extra lookup
`status__exact=1`, i.e. the first row of the live entries strictly
after (resp. before) this entry ordered by `pub_date`; `DoesNotExist`
is embedded as `none`. -/
def Entry._next_previous_helper (e : Entry) (is_next : Bool)
    (store : List Entry) : Option Entry :=
  if is_next then
    pickEarliest (store.filter
      (fun x => x.status == 1 && DateTime.lt e.pub_date x.pub_date))
  else
    pickLatest (store.filter
      (fun x => x.status == 1 && DateTime.lt x.pub_date e.pub_date))

/-- Embedding of `Entry.get_next`: next Entry with live status by `pub_date`, or none. -/
def Entry.get_next (e : Entry) (store : List Entry) : Option Entry :=
  Entry._next_previous_helper e true store

/-- Embedding of `Entry.get_previous`: previous Entry with live status by `pub_date`,
or none. -/
def Entry.get_previous (e : Entry) (store : List Entry) : Option Entry :=
  Entry._next_previous_helper e false store

/-- Modelled from the spec: `coltrane.managers.LiveEntryManager`
(`coltrane/managers.py` is not under `src/`; only its import and the
declaration `live = managers.LiveEntryManager()` are).  Per the spec it
"filters entries to status == Live". -/
def Entry.liveEntries (store : List Entry) : List Entry :=
  store.filter (fun e => e.status == 1)

/-- Embedding of `Category.entry_set`: the entries whose many-to-many category set
contains this (saved) category's primary key. -/
def Category.entry_set (c : Category) (store : List Entry) : List Entry :=
  store.filter (fun e =>
    match c.id with
    | some i => e.categories.contains i
    | none => false)

/-- Embedding of `Category._get_live_entries`: `self.entry_set.filter(status__exact=1)`. -/
def Category._get_live_entries (c : Category) (store : List Entry) : List Entry :=
  (c.entry_set store).filter (fun e => e.status == 1)

/-- The admin-validation check declared by
`slug = models.SlugField(..., unique_for_date='pub_date')`: the slug must
not collide with an existing entry published on the same calendar day. -/
def Entry.validates_unique_for_date (e : Entry) (store : List Entry) : Bool :=
  store.all (fun x => !(x.slug == e.slug && x.pub_date.day == e.pub_date.day))

/-- Creating an `Entry` through the admin: `unique_for_date` validation
runs first and blocks persistence on failure; otherwise `Entry.save`. -/
def Entry.create (fmt : String → Option String) (e : Entry)
    (store : List Entry) : Option (Entry × List Entry) :=
  if Entry.validates_unique_for_date e store then Entry.save fmt e store
  else none

/-- Model `coltrane.models.Link`.  `description`/`description_html` are optional
(`blank=True, null=True`). -/
structure Link where
  id : Option Nat := none
  enable_comments : Bool := true
  post_elsewhere : Bool
  posted_by : Nat
  pub_date : DateTime
  slug : String
  title : String
  description : Option String := none
  description_html : Option String := none
  via_name : Option String := none
  via_url : Option String := none
  tags : String := ""
  url : String
deriving Repr, DecidableEq

/-- Fresh primary key for a `Link` insert. -/
def linkFreshId (store : List Link) : Nat :=
  (store.filterMap (fun l => l.id)).foldr Nat.max 0 + 1

/-- The underlying `Model.save()` write for `Link`. -/
def writeLink (l : Link) (store : List Link) : Link × List Link :=
  match l.id with
  | none =>
    let l2 := { l with id := some (linkFreshId store) }
    (l2, store ++ [l2])
  | some i => (l, store.map (fun x => if x.id == some i then l else x))

/-- Outcome of `Link.save`: how many external bookmark-publish calls were
attempted, whether an attempted call failed (the bare `except: pass`
swallows the failure), and the persisted result (`none` = the save raised
and nothing was written). -/
structure LinkSaveResult where
  publishAttempts : Nat
  publishError : Bool
  persisted : Option (Link × List Link)
deriving Repr, DecidableEq

/-- Embedding of `Link.save`:

    if not self.id and self.post_elsewhere:
        # (imports pydelicious)
        try:
            pydelicious.add(...)
        except:
            pass
    if self.description:
        self.description_html = formatter(self.description)
    super(Link, self).save()

`publishOk` is the outcome of the external `pydelicious.add` call when it
is made (`false` = the call raised); the `try/except` discards it.  The
publish attempt happens before rendering and before the write. -/
def Link.save (fmt : String → Option String) (publishOk : Bool) (l : Link)
    (store : List Link) : LinkSaveResult :=
  let attempted : Bool := l.id == none && l.post_elsewhere
  let attempts : Nat := if attempted then 1 else 0
  let perr : Bool := attempted && !publishOk
  let persisted :=
    match (if optTruthy l.description then (fmt (l.description.getD "")).map some
           else some l.description_html) with
    | none => none
    | some dh => some (writeLink { l with description_html := dh } store)
  ⟨attempts, perr, persisted⟩

/-- A comment-moderation decision. -/
inductive ModerationDecision
  | reject
  | hold
  | accept
deriving Repr, DecidableEq

/-- A moderation outcome: the decision plus whether maintainers are
notified by email. -/
structure ModerationOutcome where
  decision : ModerationDecision
  notify : Bool
deriving Repr, DecidableEq

/-- Modelled from the spec: the decision procedure of the Comment
Moderator (`ColtraneModerator` in `src/models.py` only declares its
configuration — `akismet = True`, `auto_moderate_field = 'pub_date'`,
`email_notification = True`, `enable_field = 'enable_comments'`,
`moderate_after = settings.COMMENTS_MODERATE_AFTER`; the deciding code
lives in `comment_utils.moderation`, which is not under `src/`).  Per the
spec: (1) `enable_comments = false` rejects; (2) a spam signal holds for
moderation; (3) entity age above the configured threshold holds for
moderation, and an absent threshold configuration defaults to holding for
review rather than throwing; (4) otherwise accept; (5) email notification
for every accepted-or-held comment, never for outright rejections. -/
def moderateComment (enable_comments : Bool) (age : Nat)
    (moderate_after : Option Nat) (spam : Bool) : ModerationOutcome :=
  if !enable_comments then ⟨ModerationDecision.reject, false⟩
  else if spam then ⟨ModerationDecision.hold, true⟩
  else
    match moderate_after with
    | none => ⟨ModerationDecision.hold, true⟩
    | some t =>
      if age > t then ⟨ModerationDecision.hold, true⟩
      else ⟨ModerationDecision.accept, true⟩

/-- A sample well-behaved renderer for concrete runs of the model. -/
def fmtOk : String → Option String := fun s => some ("<p>" ++ s ++ "</p>")

/-- A renderer that raises on every input. -/
def fmtFail : String → Option String := fun _ => none

/-- A brand-new `Entry` as an author creates one without touching the
fields that carry declared defaults (`status`, `enable_comments`,
`featured`, the html caches, categories, tags). -/
def Entry.new (a : Nat) (d : DateTime) (s t b : String) : Entry :=
  { author := a, pub_date := d, slug := s, title := t, body := b }

/-- Concrete entry with a non-empty excerpt, before its first save. -/
def c1Entry0 : Entry :=
  { author := 1, pub_date := ⟨1, 0⟩, slug := "hello", title := "Hello",
    body := "world", excerpt := some "teaser" }

/-- The entry as persisted by the first save. -/
def c1Saved1 : Entry := ((Entry.save fmtOk c1Entry0 []).map Prod.fst).getD c1Entry0

/-- The store after the first save. -/
def c1St1 : List Entry := ((Entry.save fmtOk c1Entry0 []).map Prod.snd).getD []

/-- The saved entry with its excerpt cleared by the author. -/
def c1Entry2 : Entry := { c1Saved1 with excerpt := some "" }

/-- Outcome of saving the cleared entry again. -/
def c1Result2 : Option (Entry × List Entry) := Entry.save fmtOk c1Entry2 c1St1

/-- The entry as persisted by the second save. -/
def c1Saved2 : Entry := (c1Result2.map Prod.fst).getD c1Entry2

/-- Demo entries at increasing publication times with statuses
Live, Draft, Live, Hidden, Live — the spec's navigation scenario. -/
def demoE1 : Entry :=
  { id := some 1, author := 1, pub_date := ⟨10, 1⟩, slug := "e1", title := "E1",
    body := "b1", status := 1 }

/-- Second demo entry: Draft. -/
def demoE2 : Entry :=
  { id := some 2, author := 1, pub_date := ⟨10, 2⟩, slug := "e2", title := "E2",
    body := "b2", status := 2 }

/-- Third demo entry: Live. -/
def demoE3 : Entry :=
  { id := some 3, author := 1, pub_date := ⟨10, 3⟩, slug := "e3", title := "E3",
    body := "b3", status := 1 }

/-- Fourth demo entry: Hidden. -/
def demoE4 : Entry :=
  { id := some 4, author := 1, pub_date := ⟨10, 4⟩, slug := "e4", title := "E4",
    body := "b4", status := 3 }

/-- Fifth demo entry: Live. -/
def demoE5 : Entry :=
  { id := some 5, author := 1, pub_date := ⟨10, 5⟩, slug := "e5", title := "E5",
    body := "b5", status := 1 }

/-- The demo store with the five entries above. -/
def demoStore : List Entry := [demoE1, demoE2, demoE3, demoE4, demoE5]

/-- A demo category with primary key 7. -/
def demoCat : Category :=
  { id := some 7, title := "Jazz", slug := "jazz", description := "jazz posts" }

/-- A demo live entry filed under category 7. -/
def demoCatEntry : Entry :=
  { id := some 9, author := 1, pub_date := ⟨11, 0⟩, slug := "cat", title := "Cat",
    body := "b", status := 1, categories := [7] }

/-- An unsaved category, used to exercise a failing renderer. -/
def c6Cat : Category :=
  { title := "T", slug := "t", description := "raw" }

/-- A new link flagged for external posting, with a description. -/
def demoLink : Link :=
  { post_elsewhere := true, posted_by := 1, pub_date := ⟨12, 0⟩, slug := "l",
    title := "L", description := some "d", url := "http://example.com/" }

/-- First entry for the slug-uniqueness scenario (day 5). -/
def c7E1 : Entry :=
  { author := 1, pub_date := ⟨5, 0⟩, slug := "dup", title := "A", body := "x" }

/-- A second entry with the same slug on the same calendar day. -/
def c7E2 : Entry :=
  { author := 1, pub_date := ⟨5, 9⟩, slug := "dup", title := "B", body := "y" }

/-- A third entry with the same slug on a different calendar day. -/
def c7E3 : Entry :=
  { author := 1, pub_date := ⟨6, 0⟩, slug := "dup", title := "C", body := "y" }

/-- The first entry as persisted. -/
def c7E1s : Entry := ((Entry.create fmtOk c7E1 []).map Prod.fst).getD c7E1

/-- The store after persisting the first entry. -/
def c7St1 : List Entry := ((Entry.create fmtOk c7E1 []).map Prod.snd).getD []

/-- A default-status entry for the C9 scenario. -/
def c9Entry : Entry := Entry.new 2 ⟨20, 0⟩ "fresh" "Fresh" "text"

/-- The C9 entry as persisted. -/
def c9Saved : Entry := ((Entry.save fmtOk c9Entry []).map Prod.fst).getD c9Entry

/-- The store after persisting the C9 entry. -/
def c9St : List Entry := ((Entry.save fmtOk c9Entry []).map Prod.snd).getD []

theorem DateTime.lt_irrefl (a : DateTime) : DateTime.lt a a = false := by
  simp [DateTime.lt]

theorem DateTime.lt_trans {a b c : DateTime} (h1 : DateTime.lt a b = true)
    (h2 : DateTime.lt b c = true) : DateTime.lt a c = true := by
  simp only [DateTime.lt, Bool.or_eq_true, Bool.and_eq_true, decide_eq_true_eq,
    beq_iff_eq] at h1 h2 ⊢
  omega

theorem pickEarliest_eq_none {l : List Entry} : pickEarliest l = none ↔ l = [] := by
  cases l with
  | nil => simp [pickEarliest]
  | cons a xs =>
    constructor
    · intro h
      unfold pickEarliest at h
      cases hp : pickEarliest xs with
      | none => rw [hp] at h; dsimp only at h; simp at h
      | some b => rw [hp] at h; dsimp only at h; split at h <;> simp at h
    · intro h; simp at h

theorem pickEarliest_mem : ∀ {l : List Entry} {x : Entry},
    pickEarliest l = some x → x ∈ l := by
  intro l
  induction l with
  | nil => intro x h; simp [pickEarliest] at h
  | cons a xs ih =>
    intro x h
    unfold pickEarliest at h
    cases hp : pickEarliest xs with
    | none =>
      rw [hp] at h
      dsimp only at h
      simp only [Option.some.injEq] at h
      subst h
      exact List.mem_cons_self a xs
    | some b =>
      rw [hp] at h
      dsimp only at h
      by_cases hab : DateTime.lt a.pub_date b.pub_date = true
      · rw [if_pos hab] at h
        simp only [Option.some.injEq] at h
        subst h
        exact List.mem_cons_self _ _
      · rw [if_neg hab] at h
        simp only [Option.some.injEq] at h
        subst h
        exact List.mem_cons_of_mem _ (ih hp)

theorem pickEarliest_min : ∀ {l : List Entry} {x : Entry}, pickEarliest l = some x →
    ∀ y ∈ l, DateTime.lt y.pub_date x.pub_date = false := by
  intro l
  induction l with
  | nil => intro x h; simp [pickEarliest] at h
  | cons a xs ih =>
    intro x h y hy
    unfold pickEarliest at h
    cases hp : pickEarliest xs with
    | none =>
      rw [hp] at h
      dsimp only at h
      simp only [Option.some.injEq] at h
      subst h
      have hxs : xs = [] := pickEarliest_eq_none.mp hp
      subst hxs
      rcases List.mem_cons.mp hy with rfl | hyx
      · exact DateTime.lt_irrefl _
      · simp at hyx
    | some b =>
      rw [hp] at h
      dsimp only at h
      by_cases hab : DateTime.lt a.pub_date b.pub_date = true
      · rw [if_pos hab] at h
        simp only [Option.some.injEq] at h
        subst h
        rcases List.mem_cons.mp hy with rfl | hyx
        · exact DateTime.lt_irrefl _
        · have h1 := ih hp y hyx
          cases hya : DateTime.lt y.pub_date a.pub_date
          · rfl
          · have h2 := DateTime.lt_trans hya hab
            rw [h2] at h1
            simp at h1
      · rw [if_neg hab] at h
        simp only [Option.some.injEq] at h
        subst h
        rcases List.mem_cons.mp hy with rfl | hyx
        · rw [Bool.not_eq_true] at hab
          exact hab
        · exact ih hp y hyx

theorem pickLatest_eq_none {l : List Entry} : pickLatest l = none ↔ l = [] := by
  cases l with
  | nil => simp [pickLatest]
  | cons a xs =>
    constructor
    · intro h
      unfold pickLatest at h
      cases hp : pickLatest xs with
      | none => rw [hp] at h; dsimp only at h; simp at h
      | some b => rw [hp] at h; dsimp only at h; split at h <;> simp at h
    · intro h; simp at h

theorem pickLatest_mem : ∀ {l : List Entry} {x : Entry},
    pickLatest l = some x → x ∈ l := by
  intro l
  induction l with
  | nil => intro x h; simp [pickLatest] at h
  | cons a xs ih =>
    intro x h
    unfold pickLatest at h
    cases hp : pickLatest xs with
    | none =>
      rw [hp] at h
      dsimp only at h
      simp only [Option.some.injEq] at h
      subst h
      exact List.mem_cons_self a xs
    | some b =>
      rw [hp] at h
      dsimp only at h
      by_cases hab : DateTime.lt b.pub_date a.pub_date = true
      · rw [if_pos hab] at h
        simp only [Option.some.injEq] at h
        subst h
        exact List.mem_cons_self _ _
      · rw [if_neg hab] at h
        simp only [Option.some.injEq] at h
        subst h
        exact List.mem_cons_of_mem _ (ih hp)

theorem pickLatest_max : ∀ {l : List Entry} {x : Entry}, pickLatest l = some x →
    ∀ y ∈ l, DateTime.lt x.pub_date y.pub_date = false := by
  intro l
  induction l with
  | nil => intro x h; simp [pickLatest] at h
  | cons a xs ih =>
    intro x h y hy
    unfold pickLatest at h
    cases hp : pickLatest xs with
    | none =>
      rw [hp] at h
      dsimp only at h
      simp only [Option.some.injEq] at h
      subst h
      have hxs : xs = [] := pickLatest_eq_none.mp hp
      subst hxs
      rcases List.mem_cons.mp hy with rfl | hyx
      · exact DateTime.lt_irrefl _
      · simp at hyx
    | some b =>
      rw [hp] at h
      dsimp only at h
      by_cases hab : DateTime.lt b.pub_date a.pub_date = true
      · rw [if_pos hab] at h
        simp only [Option.some.injEq] at h
        subst h
        rcases List.mem_cons.mp hy with rfl | hyx
        · exact DateTime.lt_irrefl _
        · have h1 := ih hp y hyx
          cases hya : DateTime.lt a.pub_date y.pub_date
          · rfl
          · have h2 := DateTime.lt_trans hab hya
            rw [h2] at h1
            simp at h1
      · rw [if_neg hab] at h
        simp only [Option.some.injEq] at h
        subst h
        rcases List.mem_cons.mp hy with rfl | hyx
        · rw [Bool.not_eq_true] at hab
          exact hab
        · exact ih hp y hyx

theorem writeEntry_spec (e : Entry) (st : List Entry) :
    (writeEntry e st).1.slug = e.slug ∧ (writeEntry e st).1.pub_date = e.pub_date ∧
    (writeEntry e st).1.status = e.status ∧ (writeEntry e st).1.body_html = e.body_html ∧
    (writeEntry e st).1.excerpt = e.excerpt ∧
    (writeEntry e st).1.excerpt_html = e.excerpt_html ∧
    (e.id = none → (writeEntry e st).2 = st ++ [(writeEntry e st).1]) := by
  cases hei : e.id <;> simp [writeEntry, hei]

theorem entrySave_inv (fmt : String → Option String) (e : Entry) (st : List Entry)
    (es : Entry) (st' : List Entry) (h : Entry.save fmt e st = some (es, st')) :
    fmt e.body = some es.body_html ∧
    (optTruthy e.excerpt = true →
      ∃ hh, fmt (e.excerpt.getD "") = some hh ∧ es.excerpt_html = some hh) ∧
    (optTruthy e.excerpt = false → es.excerpt_html = e.excerpt_html) ∧
    es.slug = e.slug ∧ es.pub_date = e.pub_date ∧ es.status = e.status ∧
    es.excerpt = e.excerpt ∧
    (e.id = none → st' = st ++ [es]) := by
  unfold Entry.save at h
  cases hx : (if optTruthy e.excerpt then (fmt (e.excerpt.getD "")).map some
              else some e.excerpt_html) with
  | none => rw [hx] at h; dsimp only at h; simp at h
  | some xh =>
    rw [hx] at h
    dsimp only at h
    cases hb : fmt e.body with
    | none => rw [hb] at h; dsimp only at h; simp at h
    | some bh =>
      rw [hb] at h
      dsimp only at h
      simp only [Option.some.injEq] at h
      have hfst : (writeEntry { e with excerpt_html := xh, body_html := bh } st).1 = es := by
        rw [h]
      have hsnd : (writeEntry { e with excerpt_html := xh, body_html := bh } st).2 = st' := by
        rw [h]
      obtain ⟨hs1, hs2, hs3, hs4, hs5, hs6, hs7⟩ :=
        writeEntry_spec { e with excerpt_html := xh, body_html := bh } st
      subst hfst
      subst hsnd
      refine ⟨?_, ?_, ?_, hs1, hs2, hs3, hs5, ?_⟩
      · rw [hs4]
      · intro ht
        rw [if_pos ht] at hx
        rcases Option.map_eq_some'.mp hx with ⟨hh, hfm, hxh⟩
        exact ⟨hh, hfm, by rw [hs6, ← hxh]⟩
      · intro hf
        rw [if_neg (by simp [hf])] at hx
        simp only [Option.some.injEq] at hx
        rw [hs6, ← hx]
      · intro hid
        exact hs7 hid

theorem writeCategory_spec (c : Category) (st : List Category) :
    (writeCategory c st).1.description_html = c.description_html ∧
    (writeCategory c st).1.description = c.description := by
  cases hei : c.id <;> simp [writeCategory, hei]

theorem categorySave_inv (fmt : String → Option String) (c : Category)
    (st : List Category) (c' : Category) (st' : List Category)
    (h : Category.save fmt c st = some (c', st')) :
    fmt c.description = some c'.description_html := by
  unfold Category.save at h
  cases hf : fmt c.description with
  | none => rw [hf] at h; dsimp only at h; simp at h
  | some hh =>
    rw [hf] at h
    dsimp only at h
    simp only [Option.some.injEq] at h
    have hfst : (writeCategory { c with description_html := hh } st).1 = c' := by rw [h]
    obtain ⟨hd, _⟩ := writeCategory_spec { c with description_html := hh } st
    subst hfst
    rw [hd]

theorem writeLink_spec (l : Link) (st : List Link) :
    (writeLink l st).1.description_html = l.description_html ∧
    (writeLink l st).1.description = l.description := by
  cases hei : l.id <;> simp [writeLink, hei]

theorem linkSavePersisted_inv (fmt : String → Option String) (ok : Bool) (l : Link)
    (st : List Link) (l' : Link) (st' : List Link)
    (h : (Link.save fmt ok l st).persisted = some (l', st')) :
    (optTruthy l.description = true →
      ∃ hh, fmt (l.description.getD "") = some hh ∧ l'.description_html = some hh) ∧
    (optTruthy l.description = false → l'.description_html = l.description_html) := by
  unfold Link.save at h
  dsimp only at h
  cases hx : (if optTruthy l.description then (fmt (l.description.getD "")).map some
              else some l.description_html) with
  | none => rw [hx] at h; dsimp only at h; simp at h
  | some dh =>
    rw [hx] at h
    dsimp only at h
    simp only [Option.some.injEq] at h
    have hfst : (writeLink { l with description_html := dh } st).1 = l' := by rw [h]
    obtain ⟨hd, _⟩ := writeLink_spec { l with description_html := dh } st
    subst hfst
    constructor
    · intro ht
      rw [if_pos ht] at hx
      rcases Option.map_eq_some'.mp hx with ⟨hh, hfm, hxh⟩
      exact ⟨hh, hfm, by rw [hd, ← hxh]⟩
    · intro hf
      rw [if_neg (by simp [hf])] at hx
      simp only [Option.some.injEq] at hx
      rw [hd, ← hx]

theorem get_next_eq (e : Entry) (store : List Entry) :
    Entry.get_next e store =
      pickEarliest (store.filter
        (fun x => x.status == 1 && DateTime.lt e.pub_date x.pub_date)) := rfl

theorem get_previous_eq (e : Entry) (store : List Entry) :
    Entry.get_previous e store =
      pickLatest (store.filter
        (fun x => x.status == 1 && DateTime.lt x.pub_date e.pub_date)) := rfl

/-- C2: for every Entry and store, `get_next` returns a live entry strictly
later by `pub_date` with no live entry strictly between (so any number of
Draft/Hidden entries are skipped), or `none` when no later live entry
exists; `get_previous` is symmetric; neither ever returns a non-live
entry. -/
theorem coltrane_next_previous_live (e : Entry) (store : List Entry) :
    (∀ n, Entry.get_next e store = some n →
      n ∈ store ∧ n.status = 1 ∧ DateTime.lt e.pub_date n.pub_date = true ∧
      ∀ x ∈ store, x.status = 1 → DateTime.lt e.pub_date x.pub_date = true →
        DateTime.lt x.pub_date n.pub_date = false) ∧
    (Entry.get_next e store = none →
      ∀ x ∈ store, x.status = 1 → DateTime.lt e.pub_date x.pub_date = false) ∧
    (∀ p, Entry.get_previous e store = some p →
      p ∈ store ∧ p.status = 1 ∧ DateTime.lt p.pub_date e.pub_date = true ∧
      ∀ x ∈ store, x.status = 1 → DateTime.lt x.pub_date e.pub_date = true →
        DateTime.lt p.pub_date x.pub_date = false) ∧
    (Entry.get_previous e store = none →
      ∀ x ∈ store, x.status = 1 → DateTime.lt x.pub_date e.pub_date = false) := by
  refine ⟨?_, ?_, ?_, ?_⟩
  · intro n h
    rw [get_next_eq] at h
    have hm := pickEarliest_mem h
    have hmin := pickEarliest_min h
    rcases List.mem_filter.mp hm with ⟨hms, hpred⟩
    rw [Bool.and_eq_true] at hpred
    obtain ⟨hstat, hlt⟩ := hpred
    refine ⟨hms, by simpa using hstat, hlt, ?_⟩
    intro x hx hxs hxlt
    exact hmin x (List.mem_filter.mpr ⟨hx, by simp [hxs, hxlt]⟩)
  · intro h x hx hxs
    rw [get_next_eq] at h
    have hnil := pickEarliest_eq_none.mp h
    cases hlt : DateTime.lt e.pub_date x.pub_date
    · rfl
    · exfalso
      have hxf : x ∈ store.filter
          (fun x => x.status == 1 && DateTime.lt e.pub_date x.pub_date) :=
        List.mem_filter.mpr ⟨hx, by simp [hxs, hlt]⟩
      rw [hnil] at hxf
      simp at hxf
  · intro p h
    rw [get_previous_eq] at h
    have hm := pickLatest_mem h
    have hmax := pickLatest_max h
    rcases List.mem_filter.mp hm with ⟨hms, hpred⟩
    rw [Bool.and_eq_true] at hpred
    obtain ⟨hstat, hlt⟩ := hpred
    refine ⟨hms, by simpa using hstat, hlt, ?_⟩
    intro x hx hxs hxlt
    exact hmax x (List.mem_filter.mpr ⟨hx, by simp [hxs, hxlt]⟩)
  · intro h x hx hxs
    rw [get_previous_eq] at h
    have hnil := pickLatest_eq_none.mp h
    cases hlt : DateTime.lt x.pub_date e.pub_date
    · rfl
    · exfalso
      have hxf : x ∈ store.filter
          (fun x => x.status == 1 && DateTime.lt x.pub_date e.pub_date) :=
        List.mem_filter.mpr ⟨hx, by simp [hxs, hlt]⟩
      rw [hnil] at hxf
      simp at hxf

/-- Witness for C2 on the spec scenario Live/Draft/Live/Hidden/Live:
the entry returned by `get_next` from the first demo entry is live and
strictly later. -/
theorem coltrane_next_previous_live_witness :
    demoE3.status = 1 ∧ DateTime.lt demoE1.pub_date demoE3.pub_date = true := by
  have h := (coltrane_next_previous_live demoE1 demoStore).1 demoE3 (by decide)
  exact ⟨h.2.1, h.2.2.1⟩

/-- C3: the live-entry query — unscoped (`Entry.live`, spec-modelled) or
scoped to a `Category` (`Category._get_live_entries`) — returns only
entries with status Live; the scoped query returns only entries associated
with that category; both results are sublists of the store (the query is
read-only and side-effect-free). -/
theorem coltrane_live_query (store : List Entry) (c : Category) :
    (∀ x ∈ Entry.liveEntries store, x.status = 1) ∧
    (Entry.liveEntries store).Sublist store ∧
    (∀ x ∈ Category._get_live_entries c store,
      x.status = 1 ∧ x ∈ store ∧ ∃ i, c.id = some i ∧ x.categories.contains i = true) ∧
    (Category._get_live_entries c store).Sublist store := by
  refine ⟨?_, ?_, ?_, ?_⟩
  · intro x hx
    simp only [Entry.liveEntries] at hx
    rcases List.mem_filter.mp hx with ⟨_, hs⟩
    simpa using hs
  · simp only [Entry.liveEntries]
    exact List.filter_sublist _
  · intro x hx
    simp only [Category._get_live_entries, Category.entry_set] at hx
    rcases List.mem_filter.mp hx with ⟨hx2, hs⟩
    rcases List.mem_filter.mp hx2 with ⟨hst, hcat⟩
    refine ⟨by simpa using hs, hst, ?_⟩
    cases hci : c.id with
    | none => rw [hci] at hcat; dsimp only at hcat; simp at hcat
    | some i =>
      rw [hci] at hcat
      dsimp only at hcat
      exact ⟨i, rfl, hcat⟩
  · simp only [Category._get_live_entries, Category.entry_set]
    exact List.Sublist.trans (List.filter_sublist _) (List.filter_sublist _)

/-- Witness for C3 at concrete stores: the unscoped query accepts a live
demo entry, and the scoped query accepts an entry filed under the demo
category. -/
theorem coltrane_live_query_witness :
    demoE3.status = 1 ∧ demoCatEntry.status = 1 := by
  refine ⟨(coltrane_live_query demoStore demoCat).1 demoE3 (by decide), ?_⟩
  exact ((coltrane_live_query [demoCatEntry] demoCat).2.2.1 demoCatEntry (by decide)).1

/-- C5: a comment on an entity whose `enable_comments` flag is false is
rejected (and not notified), for every entity age, configured threshold,
and spam signal. -/
theorem coltrane_moderator_rejects_closed (age : Nat) (th : Option Nat) (spam : Bool) :
    moderateComment false age th spam = ⟨ModerationDecision.reject, false⟩ := rfl

/-- C8: the Comment Moderator always produces a decision; with the
moderation-age threshold configuration absent it holds the comment for
review (for an entity with comments enabled) instead of throwing. -/
theorem coltrane_moderator_total (age : Nat) (th : Option Nat) (spam : Bool) :
    (moderateComment true age none spam).decision = ModerationDecision.hold ∧
    ((moderateComment true age th spam).decision = ModerationDecision.reject ∨
     (moderateComment true age th spam).decision = ModerationDecision.hold ∨
     (moderateComment true age th spam).decision = ModerationDecision.accept) ∧
    ((moderateComment false age th spam).decision = ModerationDecision.reject ∨
     (moderateComment false age th spam).decision = ModerationDecision.hold ∨
     (moderateComment false age th spam).decision = ModerationDecision.accept) := by
  refine ⟨?_, ?_, ?_⟩
  · cases spam <;> simp [moderateComment]
  · cases spam
    · rcases th with _ | t
      · simp [moderateComment]
      · simp only [moderateComment]
        split <;> simp
        split <;> simp
    · simp [moderateComment]
  · simp [moderateComment]

/-- Counterexample to C1 as stated: an entry whose excerpt was non-empty at
an earlier save and has since been cleared is saved again successfully,
yet its rendered `excerpt_html` is the stale non-empty render of the old
excerpt — the raw field is empty while the rendered field is not, refuting
"rendered is empty iff the raw field is empty or absent". -/
theorem coltrane_rendered_iff_empty_cex :
    c1Result2.isSome = true ∧
    optEmpty c1Saved2.excerpt = true ∧
    optEmpty c1Saved2.excerpt_html = false ∧
    c1Saved2.excerpt_html = some "<p>teaser</p>" := by decide

/-- C1 (amended): after any successful save, rendered = render(raw) for
the required pairs (`Category.description`, `Entry.body`) and for every
optional pair whose raw field is non-empty at save time (`Entry.excerpt`,
`Link.description`); when the optional raw field is empty or absent, the
save leaves the rendered field unchanged from its prior value. -/
theorem coltrane_rendered_on_save (fmt : String → Option String) :
    (∀ (c : Category) st cs st', Category.save fmt c st = some (cs, st') →
      fmt c.description = some cs.description_html) ∧
    (∀ (e : Entry) st es st', Entry.save fmt e st = some (es, st') →
      fmt e.body = some es.body_html ∧
      (optTruthy e.excerpt = true →
        ∃ hh, fmt (e.excerpt.getD "") = some hh ∧ es.excerpt_html = some hh) ∧
      (optTruthy e.excerpt = false → es.excerpt_html = e.excerpt_html)) ∧
    (∀ (l : Link) ok st ls st', (Link.save fmt ok l st).persisted = some (ls, st') →
      (optTruthy l.description = true →
        ∃ hh, fmt (l.description.getD "") = some hh ∧ ls.description_html = some hh) ∧
      (optTruthy l.description = false → ls.description_html = l.description_html)) := by
  refine ⟨?_, ?_, ?_⟩
  · intro c st cs st' h
    exact categorySave_inv fmt c st cs st' h
  · intro e st es st' h
    obtain ⟨hb, hxt, hxf, _, _, _, _, _⟩ := entrySave_inv fmt e st es st' h
    exact ⟨hb, hxt, hxf⟩
  · intro l ok st ls st' h
    exact linkSavePersisted_inv fmt ok l st ls st' h

/-- Witness for the amended C1: on the concrete first save, the persisted
body html is the render of the raw body. -/
theorem coltrane_rendered_on_save_witness :
    fmtOk c1Entry0.body = some c1Saved1.body_html :=
  ((coltrane_rendered_on_save fmtOk).2.1 c1Entry0 [] c1Saved1 c1St1 (by decide)).1

/-- C4: for a Link being created (`id = none`) with `post_elsewhere`,
exactly one external publish call is attempted; none is attempted on an
edit (`id` set) or when the flag is off; the persisted outcome does not
depend on whether the external call succeeded (the bare `except` swallows
the failure), and the save persists whenever rendering succeeds. -/
theorem coltrane_link_publish_once_swallowed (fmt : String → Option String) (ok : Bool)
    (l : Link) (st : List Link) :
    (l.id = none → l.post_elsewhere = true → (Link.save fmt ok l st).publishAttempts = 1) ∧
    ((l.id ≠ none ∨ l.post_elsewhere = false) → (Link.save fmt ok l st).publishAttempts = 0) ∧
    ((Link.save fmt ok l st).persisted = (Link.save fmt true l st).persisted) ∧
    ((optTruthy l.description = false ∨ (∃ hh, fmt (l.description.getD "") = some hh)) →
      (Link.save fmt ok l st).persisted.isSome = true) := by
  refine ⟨?_, ?_, rfl, ?_⟩
  · intro h1 h2
    simp [Link.save, h1, h2]
  · intro h
    rcases h with h | h
    · cases hli : l.id with
      | none => exact absurd hli h
      | some i => simp [Link.save, hli]
    · simp [Link.save, h]
  · intro h
    rcases h with h | ⟨hh, hf⟩
    · simp [Link.save, h]
    · cases ht : optTruthy l.description
      · simp [Link.save, ht]
      · simp [Link.save, ht, hf]

/-- Witness for C4: a concrete new link with the flag set and a failing
external call attempts exactly one publish and still persists. -/
theorem coltrane_link_publish_once_swallowed_witness :
    (Link.save fmtOk false demoLink []).publishAttempts = 1 ∧
    (Link.save fmtOk false demoLink []).persisted.isSome = true := by
  have h := coltrane_link_publish_once_swallowed fmtOk false demoLink []
  exact ⟨h.1 rfl rfl, h.2.2.2 (Or.inr ⟨"<p>d</p>", by decide⟩)⟩

/-- C6: if the renderer raises, the save fails with no write: `save`
returns `none` for all three entity types (for `Entry`, whether the body
render or the excerpt render raises), so no state with raw text but
missing or mismatched rendered HTML is ever persisted. -/
theorem coltrane_render_failure_atomic (fmt : String → Option String) :
    (∀ (c : Category) st, fmt c.description = none → Category.save fmt c st = none) ∧
    (∀ (e : Entry) st, fmt e.body = none → Entry.save fmt e st = none) ∧
    (∀ (e : Entry) st, optTruthy e.excerpt = true → fmt (e.excerpt.getD "") = none →
      Entry.save fmt e st = none) ∧
    (∀ (l : Link) ok st, optTruthy l.description = true →
      fmt (l.description.getD "") = none → (Link.save fmt ok l st).persisted = none) := by
  refine ⟨?_, ?_, ?_, ?_⟩
  · intro c st h
    simp [Category.save, h]
  · intro e st h
    unfold Entry.save
    cases hx : (if optTruthy e.excerpt then (fmt (e.excerpt.getD "")).map some
                else some e.excerpt_html)
    · rfl
    · dsimp only
      rw [h]
  · intro e st ht h
    unfold Entry.save
    rw [if_pos ht, h]
    rfl
  · intro l ok st ht h
    unfold Link.save
    dsimp only
    rw [if_pos ht, h]
    rfl

/-- Witness for C6: with an always-raising renderer, the concrete saves of
a category, an entry, and a link all fail with no write. -/
theorem coltrane_render_failure_atomic_witness :
    Category.save fmtFail c6Cat [] = none ∧
    Entry.save fmtFail c1Entry0 [] = none ∧
    (Link.save fmtFail false demoLink []).persisted = none := by
  have h := coltrane_render_failure_atomic fmtFail
  exact ⟨h.1 c6Cat [] rfl, h.2.1 c1Entry0 [] rfl, h.2.2.2 demoLink false [] (by decide) rfl⟩

/-- C10: for a new Link with `post_elsewhere` whose description render
then raises, the external publish has already been attempted (one call)
while nothing is persisted — the external side effect is not atomic with
the save. -/
theorem coltrane_link_publish_before_render (fmt : String → Option String) (ok : Bool)
    (l : Link) (st : List Link) (h1 : l.id = none) (h2 : l.post_elsewhere = true)
    (h3 : optTruthy l.description = true) (h4 : fmt (l.description.getD "") = none) :
    (Link.save fmt ok l st).publishAttempts = 1 ∧
    (Link.save fmt ok l st).persisted = none := by
  constructor
  · simp [Link.save, h1, h2]
  · simp [Link.save, h3, h4]

/-- Witness for C10: the concrete new flagged link under an always-raising
renderer attempts the publish and persists nothing. -/
theorem coltrane_link_publish_before_render_witness :
    (Link.save fmtFail false demoLink []).publishAttempts = 1 ∧
    (Link.save fmtFail false demoLink []).persisted = none :=
  coltrane_link_publish_before_render fmtFail false demoLink []
    (by decide) (by decide) (by decide) (by decide)

/-- C7: after successfully creating an entry, creating a second entry with
the same slug and a `pub_date` on the same calendar day fails validation
and persists nothing, while the same slug on a different day succeeds
(given the renderer succeeds on its body). -/
theorem coltrane_slug_unique_for_date (fmt : String → Option String) (e1 e2 e1s : Entry)
    (st1 : List Entry) (hid : e1.id = none)
    (h1 : Entry.create fmt e1 [] = some (e1s, st1)) :
    (e2.slug = e1.slug → e2.pub_date.day = e1.pub_date.day →
      Entry.create fmt e2 st1 = none) ∧
    (e2.slug = e1.slug → e2.pub_date.day ≠ e1.pub_date.day →
      optTruthy e2.excerpt = false → (∃ bh, fmt e2.body = some bh) →
      (Entry.create fmt e2 st1).isSome = true) := by
  have hsave : Entry.save fmt e1 [] = some (e1s, st1) := by
    unfold Entry.create at h1
    rw [if_pos (show Entry.validates_unique_for_date e1 [] = true from rfl)] at h1
    exact h1
  obtain ⟨_, _, _, hslug, hpub, _, _, hidst⟩ := entrySave_inv fmt e1 [] e1s st1 hsave
  have hst1 : st1 = [e1s] := by rw [hidst hid]; rfl
  subst hst1
  constructor
  · intro hs hd
    have hseq : e1s.slug = e2.slug := by rw [hslug, hs]
    have hdeq : e1s.pub_date.day = e2.pub_date.day := by rw [hpub, hd]
    have hv2 : Entry.validates_unique_for_date e2 [e1s] = false := by
      simp [Entry.validates_unique_for_date, hseq, hdeq]
    simp [Entry.create, hv2]
  · intro hs hd hxf hb
    obtain ⟨bh, hb⟩ := hb
    have hdne : (e1s.pub_date.day == e2.pub_date.day) = false := by
      rw [hpub]
      exact beq_eq_false_iff_ne.mpr (fun hq => hd hq.symm)
    have hv2 : Entry.validates_unique_for_date e2 [e1s] = true := by
      simp [Entry.validates_unique_for_date, hdne]
    unfold Entry.create
    rw [if_pos hv2]
    unfold Entry.save
    rw [if_neg (by simp [hxf]), hb]
    rfl

/-- Witness for C7: the concrete duplicate on day 5 is blocked while the
same slug on day 6 persists. -/
theorem coltrane_slug_unique_for_date_witness :
    Entry.create fmtOk c7E2 c7St1 = none ∧
    (Entry.create fmtOk c7E3 c7St1).isSome = true := by
  have hA := coltrane_slug_unique_for_date fmtOk c7E1 c7E2 c7E1s c7St1 (by decide) (by decide)
  have hB := coltrane_slug_unique_for_date fmtOk c7E1 c7E3 c7E1s c7St1 (by decide) (by decide)
  exact ⟨hA.1 rfl rfl, hB.2 rfl (by decide) (by decide) ⟨"<p>y</p>", by decide⟩⟩

/-- C9: an Entry created without the author touching `status` carries the
declared default 1 (Live), and after a successful save it is returned by
the live-entry query (hence publicly visible and eligible for
next/previous navigation). -/
theorem coltrane_new_entry_defaults_live (a : Nat) (d : DateTime) (s t b : String)
    (fmt : String → Option String) (store : List Entry) :
    (Entry.new a d s t b).status = 1 ∧
    ∀ es st', Entry.save fmt (Entry.new a d s t b) store = some (es, st') →
      es.status = 1 ∧ es ∈ Entry.liveEntries st' := by
  refine ⟨rfl, ?_⟩
  intro es st' h
  obtain ⟨_, _, _, _, _, hstat, _, hid⟩ :=
    entrySave_inv fmt (Entry.new a d s t b) store es st' h
  have hstat1 : es.status = 1 := by rw [hstat]; rfl
  have hst' : st' = store ++ [es] := hid rfl
  subst hst'
  refine ⟨hstat1, ?_⟩
  simp only [Entry.liveEntries, List.mem_filter]
  exact ⟨by simp, by simp [hstat1]⟩

/-- Witness for C9: a concrete untouched new entry has status 1 and, once
saved, appears in the live-entry query over the resulting store. -/
theorem coltrane_new_entry_defaults_live_witness :
    c9Entry.status = 1 ∧ c9Saved.status = 1 ∧ c9Saved ∈ Entry.liveEntries c9St := by
  have h := coltrane_new_entry_defaults_live 2 ⟨20, 0⟩ "fresh" "Fresh" "text" fmtOk []
  have h2 := h.2 c9Saved c9St (by decide)
  exact ⟨h.1, h2.1, h2.2⟩
